import Mathlib

/-!
Verification of the batch ISBN processing pipeline in `book_scraper.py`.

The Python source is shallowly embedded: every browser interaction
(navigation, element waits, text reads, clicks) is an oracle value supplied
by an environment record, carrying either a result or the Python exception
it raises.  Python exception handling (`try`/`except`/`finally`) becomes
explicit matching on `Except` values, and Python's dynamic values (the
queue path passes strings where tuples are expected) are embedded by the
`PyVal` type with explicit indexing/unpacking semantics.  The thread pool
of `process_batch` is modelled by partitioning the batch across worker
queues, each worker emitting a serial trace of session events, with a
schedule choosing an arbitrary interleaving.
-/

deriving instance DecidableEq for Except

namespace BookScraper

/-- Exceptions that can arise in the embedded fragment: the three Selenium
exceptions the source names, plus `IndexError` (from `split('$')[1]`),
`ValueError` (from tuple unpacking), and a catch-all for anything else. -/
inductive PyExn where
  | timeoutEx
  | noSuchElementEx
  | staleElementEx
  | indexErrorEx
  | valueErrorEx
  | otherEx
deriving DecidableEq

/-- Dynamically typed Python values flowing through the batch paths:
strings, integers and pairs (tuples of length two). -/
inductive PyVal where
  | str (s : String)
  | int (n : Nat)
  | pair (a b : PyVal)
deriving DecidableEq

/-- Python `str()` of an embedded value (used only to build URLs). -/
def pyToStr : PyVal → String
  | .str s => s
  | .int n => toString n
  | .pair a b => "(" ++ pyToStr a ++ ", " ++ pyToStr b ++ ")"

/-- Whitespace characters removed by Python's `str.strip()`. -/
def pyIsSpace (c : Char) : Bool :=
  c == ' ' || c == '\t' || c == '\n' || c == '\r' || c == '\x0b' || c == '\x0c'

/-- Python `s.split(sep)` on character lists: fields between occurrences of
`sep`, keeping empty fields; the result always has one more field than
there are separators, so it is never empty. -/
def splitOnSep (sep : Char) : List Char → List (List Char)
  | [] => [[]]
  | c :: cs =>
    if c == sep then [] :: splitOnSep sep cs
    else
      match splitOnSep sep cs with
      | [] => [[c]]
      | f :: rest => (c :: f) :: rest

/-- Leading-whitespace removal (the left half of Python `strip()`). -/
def ldropWs (l : List Char) : List Char := l.dropWhile pyIsSpace

/-- Trailing-whitespace removal (the right half of Python `strip()`). -/
def rdropWs (l : List Char) : List Char := (l.reverse.dropWhile pyIsSpace).reverse

/-- Python `s.strip()`: whitespace removed from both ends. -/
def pyStripWs (l : List Char) : List Char := rdropWs (ldropWs l)

/-- Python `s.strip('$')`: all `'$'` characters removed from both ends. -/
def pyStripDollar (l : List Char) : List Char :=
  ((l.dropWhile (fun c => c == '$')).reverse.dropWhile (fun c => c == '$')).reverse

/-- Python `s and s[0].isdigit()`: the text is nonempty and begins with a
decimal digit. -/
def headIsDigit : List Char → Bool
  | [] => false
  | c :: _ => c.isDigit

/-- Python `needle in hay` on strings: contiguous-subsequence containment. -/
def containsSeq (needle : List Char) : List Char → Bool
  | [] => needle.isEmpty
  | c :: rest => needle.isPrefixOf (c :: rest) || containsSeq needle rest

/-- Everything of the text after the first occurrence of `sep` (empty when
`sep` does not occur).  This is the reading of the specification's
"the substring of the text after the marker", used to compare the spec's
description of site-A parsing against the code's `split('$')[1]`. -/
def suffixAfterFirst (sep : Char) : List Char → List Char
  | [] => []
  | c :: cs => if c == sep then cs else suffixAfterFirst sep cs

/-- Modelled from the spec: "extraction returns exactly the substring after
the marker, trimmed" — the substring of the text after the first currency
marker, trimmed of whitespace.  Compared against the code's
`split('$')[1].strip()` extraction. -/
def siteA_spec_extract (t : String) : String :=
  String.mk (pyStripWs (suffixAfterFirst '$' t.data))

/-- Configured worker-pool size (`CONCURRENT_BROWSERS = 3` in the source). -/
def CONCURRENT_BROWSERS : Nat := 3

/-- Fixed settling delay between navigation steps (source `DELAY = 10`). -/
def DELAY : Nat := 10

/-- Page-load timeout (source `PAGE_LOAD_TIMEOUT = 60`). -/
def PAGE_LOAD_TIMEOUT : Nat := 60

/-- Environment for one `fetch_bookscouter_data` call: the outcome of the
navigation, of the wait for the price element, and of reading its text. -/
structure EnvA where
  nav : Except PyExn Unit
  waitPrice : Except PyExn Unit
  priceText : Except PyExn String
deriving DecidableEq

/-- The `try` body of `fetch_bookscouter_data` (source lines 56-71): navigate,
wait for the `VendorPriceContainer` element, read its text, take
`text.split('$')[1].strip()` (index 1 raises `IndexError` when the text has
no `'$'`), and return `'N/A'` when the result is empty or does not start
with a digit. -/
def bookscouterTryBody (env : EnvA) (_isbn : String) : Except PyExn String :=
  match env.nav with
  | .error e => .error e
  | .ok _ =>
    match env.waitPrice with
    | .error e => .error e
    | .ok _ =>
      match env.priceText with
      | .error e => .error e
      | .ok t =>
        match (splitOnSep '$' t.data).get? 1 with
        | none => .error .indexErrorEx
        | some raw =>
          let price := pyStripWs raw
          if price.isEmpty || !headIsDigit price then .ok "N/A"
          else .ok (String.mk price)

/-- Source `fetch_bookscouter_data` (lines 55-80): the `try` body wrapped in
handlers for `TimeoutException`, `NoSuchElementException` and the catch-all
`Exception`, each returning `'N/A'`.  The `Except` result type records
whether the Python call raises. -/
def fetch_bookscouter_data (env : EnvA) (isbn : String) : Except PyExn String :=
  match bookscouterTryBody env isbn with
  | .ok s => .ok s
  | .error .timeoutEx => .ok "N/A"
  | .error .noSuchElementEx => .ok "N/A"
  | .error _ => .ok "N/A"

/-- Environment for one `fetch_restricted_inventory_data` call: outcomes of
the navigation, the search-bar wait/clear/send-keys, the button
wait/click, the "not profitable" probe (element wait and text read), and
the profit element wait and text read. -/
structure EnvB where
  nav : Except PyExn Unit
  waitSearchBar : Except PyExn Unit
  clearBar : Except PyExn Unit
  sendKeys : Except PyExn Unit
  waitButton : Except PyExn Unit
  clickButton : Except PyExn Unit
  waitModel : Except PyExn Unit
  modelText : Except PyExn String
  waitProfit : Except PyExn Unit
  profitText : Except PyExn String
deriving DecidableEq

/-- The sentinel phrase checked against the `model_txt` element. -/
def notProfitablePhrase : String := "This item is not profitable enough to sell."

/-- The inner `try` of `fetch_restricted_inventory_data` (source lines
101-108): wait for the `model_txt` element and read its text; on
`TimeoutException` or `NoSuchElementException` fall through (`.ok none`);
any other exception propagates; if the known phrase occurs in the text the
function returns `'Not profitable'` (`.ok (some _)`). -/
def notProfitableProbe (env : EnvB) : Except PyExn (Option String) :=
  match env.waitModel with
  | .error .timeoutEx => .ok none
  | .error .noSuchElementEx => .ok none
  | .error e => .error e
  | .ok _ =>
    match env.modelText with
    | .error .timeoutEx => .ok none
    | .error .noSuchElementEx => .ok none
    | .error e => .error e
    | .ok t =>
      if containsSeq notProfitablePhrase.data t.data then .ok (some "Not profitable")
      else .ok none

/-- Whether the "not profitable" early return fires for this environment. -/
def probeFires (env : EnvB) : Bool :=
  match notProfitableProbe env with
  | .ok (some _) => true
  | _ => false

/-- The `try` body of `fetch_restricted_inventory_data` (source lines
83-119): navigate, fill and submit the search form, probe for the "not
profitable" indicator, then wait for the profit element, read its text,
strip `'$'` from both ends, and return `'N/A'` when the result is empty or
does not start with a digit. -/
def restrictedTryBody (env : EnvB) (_isbn : String) : Except PyExn String :=
  match env.nav with
  | .error e => .error e
  | .ok _ =>
    match env.waitSearchBar with
    | .error e => .error e
    | .ok _ =>
      match env.clearBar with
      | .error e => .error e
      | .ok _ =>
        match env.sendKeys with
        | .error e => .error e
        | .ok _ =>
          match env.waitButton with
          | .error e => .error e
          | .ok _ =>
            match env.clickButton with
            | .error e => .error e
            | .ok _ =>
              match notProfitableProbe env with
              | .error e => .error e
              | .ok (some r) => .ok r
              | .ok none =>
                match env.waitProfit with
                | .error e => .error e
                | .ok _ =>
                  match env.profitText with
                  | .error e => .error e
                  | .ok t =>
                    let profit := pyStripDollar t.data
                    if profit.isEmpty || !headIsDigit profit then .ok "N/A"
                    else .ok (String.mk profit)

/-- Source `fetch_restricted_inventory_data` (lines 82-131): the `try` body
wrapped in handlers for `TimeoutException`, `NoSuchElementException`,
`StaleElementReferenceException` and the catch-all `Exception`, each
returning `'N/A'`. -/
def fetch_restricted_inventory_data (env : EnvB) (isbn : String) : Except PyExn String :=
  match restrictedTryBody env isbn with
  | .ok s => .ok s
  | .error .timeoutEx => .ok "N/A"
  | .error .noSuchElementEx => .ok "N/A"
  | .error .staleElementEx => .ok "N/A"
  | .error _ => .ok "N/A"

/-- Session-lifecycle events observable while one item is processed:
`process_isbn` opens a browser, runs the site-A extraction, then the
site-B extraction, and quits the browser. -/
inductive Event where
  | sessionOpen
  | extractA
  | extractB
  | sessionClose
deriving DecidableEq

/-- The dictionary returned by `process_isbn` (source lines 139-144). -/
structure PyRec where
  ISBN : PyVal
  BookScouter : String
  RestrictedInventory : String
  RowIndex : PyVal
deriving DecidableEq

/-- Control-flow core of `process_isbn` (source lines 133-146), parametric in
the outcomes of the two extraction calls so that the `try`/`finally`
discipline is modelled even for extraction calls that raise: the driver is
opened, site A is extracted, site B is extracted only if site A returned,
and the `finally` block closes the driver on every exit path. -/
def process_isbn_core (fa fb : Except PyExn String) (isbn row : PyVal) :
    Except PyExn PyRec × List Event :=
  match fa with
  | .error e => (.error e, [.sessionOpen, .extractA, .sessionClose])
  | .ok a =>
    match fb with
    | .error e => (.error e, [.sessionOpen, .extractA, .extractB, .sessionClose])
    | .ok b =>
      (.ok ⟨isbn, a, b, row⟩, [.sessionOpen, .extractA, .extractB, .sessionClose])

/-- Browser-oracle environments for the two extraction calls of one
`process_isbn` invocation. -/
structure ProcEnv where
  envA : EnvA
  envB : EnvB
deriving DecidableEq

/-- Source `process_isbn`: one driver, `fetch_bookscouter_data` then
`fetch_restricted_inventory_data` on it, packaged into the result record,
with `driver.quit()` in a `finally`. -/
def process_isbn (env : ProcEnv) (isbn row : PyVal) : Except PyExn PyRec × List Event :=
  process_isbn_core (fetch_bookscouter_data env.envA (pyToStr isbn))
    (fetch_restricted_inventory_data env.envB (pyToStr isbn)) isbn row

/-- Python subscripting `v[i]` on embedded values: tuple component access,
string character access, `IndexError` out of range, `TypeError`
(embedded as `otherEx`) on integers. -/
def pyIndex : PyVal → Nat → Except PyExn PyVal
  | .pair a _, 0 => .ok a
  | .pair _ b, 1 => .ok b
  | .pair _ _, _ => .error .indexErrorEx
  | .str s, i =>
    match (s.data).get? i with
    | some c => .ok (.str (String.mk [c]))
    | none => .error .indexErrorEx
  | .int _, _ => .error .otherEx

/-- Python destructuring `a, b = v`: a pair unpacks to its components, a
string of length exactly two unpacks to its two one-character strings, any
other string raises `ValueError`, an integer raises `TypeError`. -/
def unpack2 : PyVal → Except PyExn (PyVal × PyVal)
  | .pair a b => .ok (a, b)
  | .str s =>
    match s.data with
    | [c1, c2] => .ok (.str (String.mk [c1]), .str (String.mk [c2]))
    | _ => .error .valueErrorEx
  | .int _ => .error .otherEx

/-- Source `process_batch` (lines 148-151), value semantics: the executor
maps `lambda x: process_isbn(x[0], x[1])` over the batch and collects the
results in input order; an exception raised for some item surfaces when
that item's result is retrieved.  `envOf` supplies the browser oracle for
each item.  `batchItem` is the mapped lambda `process_isbn(x[0], x[1])`. -/
def batchItem (envOf : PyVal → ProcEnv) (x : PyVal) : Except PyExn PyRec :=
  match pyIndex x 0 with
  | .error e => .error e
  | .ok i =>
    match pyIndex x 1 with
    | .error e => .error e
    | .ok r => (process_isbn (envOf x) i r).1

/-- Collecting the mapped results in input order; the first raising item's
exception surfaces when its result is retrieved. -/
def process_batch (envOf : PyVal → ProcEnv) : List PyVal → Except PyExn (List PyRec)
  | [] => .ok []
  | x :: xs =>
    match batchItem envOf x with
    | .error e => .error e
    | .ok rec =>
      match process_batch envOf xs with
      | .error e => .error e
      | .ok rs => .ok (rec :: rs)

/-- Events observable from the sequential batch path: a Processing Result is
produced for an item, or the Status Tracker marks an ISBN. -/
inductive BEvent where
  | produced (isbn row : PyVal)
  | marked (isbn : PyVal) (status : String)
deriving DecidableEq

/-- Source `process_isbn_batch` (lines 190-196): sequentially unpack each
batch element as `(isbn, row_index)`, process it, append the result, and
update the processing status to `'processed'`; the trace records the
produced-result and status-update events in order.  An exception raised by
unpacking (or processing) aborts the loop at that element. -/
def process_isbn_batch (envOf : PyVal → ProcEnv) :
    List PyVal → Except PyExn (List PyRec) × List BEvent
  | [] => (.ok [], [])
  | v :: rest =>
    match unpack2 v with
    | .error e => (.error e, [])
    | .ok (i, r) =>
      match (process_isbn (envOf v) i r).1 with
      | .error e => (.error e, [])
      | .ok rec =>
        match process_isbn_batch envOf rest with
        | (res, tr) =>
          ((res.map fun rs => rec :: rs),
            .produced i r :: .marked i "processed" :: tr)

/-- The produced-result and status-update events one batch element
contributes when its unpacking succeeds. -/
def eventsFor (v : PyVal) : List BEvent :=
  match unpack2 v with
  | .ok (i, r) => [.produced i r, .marked i "processed"]
  | .error _ => []

/-- Source `process_pubsub_message` (lines 159-163): the payload is split on
commas into flat ISBN strings and handed to `process_isbn_batch`
(sheet update and ack follow only on success and are not needed here). -/
def process_pubsub_message (envOf : PyVal → ProcEnv) (payload : String) :
    Except PyExn (List PyRec) × List BEvent :=
  process_isbn_batch envOf ((splitOnSep ',' payload.data).map fun l => PyVal.str (String.mk l))

/-- One Status Record as stored by the tracker: status string and the
server-assigned timestamp. -/
structure StatusRecord where
  status : String
  timestamp : Nat
deriving DecidableEq

/-- Firestore `document(key).set(val)` over an association-list model of the
collection: overwrite every record held under `key`, or append a fresh
record when none exists. -/
def docSet (docs : List (String × StatusRecord)) (key : String) (val : StatusRecord) :
    List (String × StatusRecord) :=
  if docs.any fun p => p.1 == key then
    docs.map fun p => if p.1 = key then (key, val) else p
  else docs ++ [(key, val)]

/-- Source `update_processing_status` (lines 176-182): set the document for
`isbn` to `{status, timestamp}` where the timestamp `now` is assigned by
the server at write time. -/
def update_processing_status (docs : List (String × StatusRecord)) (now : Nat)
    (isbn status : String) : List (String × StatusRecord) :=
  docSet docs isbn ⟨status, now⟩

/-- Net number of live sessions after a trace: opens minus closes. -/
def liveSessions (tr : List Event) : Int :=
  (tr.count .sessionOpen : Int) - (tr.count .sessionClose : Int)

/-- Contribution of one event to the live-session count. -/
def eventDelta : Event → Int
  | .sessionOpen => 1
  | .sessionClose => -1
  | _ => 0

/-- The serial event trace of one worker slot of the pool: it runs its queued
items one after another, each via `process_isbn` (after the lambda's
subscripting; an item whose subscripting raises contributes no session). -/
def workerQueueTrace (envOf : PyVal → ProcEnv) (queue : List PyVal) : List Event :=
  queue.flatMap fun v =>
    match pyIndex v 0 with
    | .error _ => []
    | .ok i =>
      match pyIndex v 1 with
      | .error _ => []
      | .ok r => (process_isbn (envOf v) i r).2

/-- Interleaving semantics of the pool: a schedule picks at each step which
worker emits its next pending event; exhausted or out-of-range picks emit
nothing. -/
def interleave : List (List Event) → List Nat → List Event
  | _, [] => []
  | ws, i :: rest =>
    match ws.get? i with
    | some (e :: es) => e :: interleave (ws.set i es) rest
    | _ => interleave ws rest

/-- No session-lifecycle event occurs in the list. -/
def NoSession (l : List Event) : Prop :=
  Event.sessionOpen ∉ l ∧ Event.sessionClose ∉ l

/-- Remaining-trace invariant for one worker slot: with flag `false` the
worker sits between items (each item contributes an open, a session-free
body, and a close); with flag `true` it is inside an item whose session is
currently open. -/
inductive SerialFrom : Bool → List Event → Prop where
  | nil : SerialFrom false []
  | item (mid rest : List Event) (hm : NoSession mid) (hr : SerialFrom false rest) :
      SerialFrom false (Event.sessionOpen :: (mid ++ Event.sessionClose :: rest))
  | inItem (mid rest : List Event) (hm : NoSession mid) (hr : SerialFrom false rest) :
      SerialFrom true (mid ++ Event.sessionClose :: rest)

/-- A site-A environment whose navigation raises: exercises the catch-all
handler. -/
def envAerr : EnvA := ⟨.error .otherEx, .ok (), .ok ""⟩

/-- A site-B environment whose navigation times out. -/
def envBerr : EnvB :=
  ⟨.error .timeoutEx, .ok (), .ok (), .ok (), .ok (), .ok (), .ok (), .ok "", .ok (), .ok ""⟩

/-- A fully successful site-A environment whose price text has two currency
markers. -/
def envA_multi : EnvA := ⟨.ok (), .ok (), .ok "$1$2"⟩

/-- A fully successful site-A environment with a single-marker price text. -/
def envA_single : EnvA := ⟨.ok (), .ok (), .ok "$12.50"⟩

/-- A site-A environment whose price text has no marker and no digit. -/
def envAbad : EnvA := ⟨.ok (), .ok (), .ok "abc"⟩

/-- A site-B environment whose profit text strips to the empty string. -/
def envBbad : EnvB :=
  ⟨.ok (), .ok (), .ok (), .ok (), .ok (), .ok (), .ok (), .ok "", .ok (), .ok "$$"⟩

/-- A site-B environment in which the "not profitable" indicator is present
with the known phrase while the profit element still holds a number. -/
def envBnp : EnvB :=
  ⟨.ok (), .ok (), .ok (), .ok (), .ok (), .ok (), .ok (),
    .ok notProfitablePhrase, .ok (), .ok "999"⟩

/-- A fully successful site-A environment. -/
def envA0 : EnvA := ⟨.ok (), .ok (), .ok "$9.99"⟩

/-- A fully successful site-B environment that is not flagged unprofitable. -/
def envB0 : EnvB :=
  ⟨.ok (), .ok (), .ok (), .ok (), .ok (), .ok (), .ok (), .ok "", .ok (), .ok "$5.00"⟩

/-- A constant browser oracle used for concrete evaluations. -/
def envOf0 : PyVal → ProcEnv := fun _ => ⟨envA0, envB0⟩


theorem fetchA_ok (env : EnvA) (isbn : String) :
    ∃ s, fetch_bookscouter_data env isbn = .ok s := by
  unfold fetch_bookscouter_data
  rcases h : bookscouterTryBody env isbn with e | s
  · cases e <;> exact ⟨"N/A", rfl⟩
  · exact ⟨s, rfl⟩

theorem fetchB_ok (env : EnvB) (isbn : String) :
    ∃ s, fetch_restricted_inventory_data env isbn = .ok s := by
  unfold fetch_restricted_inventory_data
  rcases h : restrictedTryBody env isbn with e | s
  · cases e <;> exact ⟨"N/A", rfl⟩
  · exact ⟨s, rfl⟩

theorem fetchA_err (env : EnvA) (isbn : String) (e : PyExn)
    (h : bookscouterTryBody env isbn = .error e) :
    fetch_bookscouter_data env isbn = .ok "N/A" := by
  unfold fetch_bookscouter_data
  rw [h]
  cases e <;> rfl

theorem process_isbn_eval (env : ProcEnv) (isbn row : PyVal) :
    ∃ a b, process_isbn env isbn row =
      (.ok ⟨isbn, a, b, row⟩, [.sessionOpen, .extractA, .extractB, .sessionClose]) := by
  obtain ⟨a, ha⟩ := fetchA_ok env.envA (pyToStr isbn)
  obtain ⟨b, hb⟩ := fetchB_ok env.envB (pyToStr isbn)
  exact ⟨a, b, by simp [process_isbn, process_isbn_core, ha, hb]⟩

theorem ldropWs_append (l r : List Char) (h : ldropWs l ≠ []) :
    ldropWs (l ++ r) = ldropWs l ++ r := by
  induction l with
  | nil => simp [ldropWs] at h
  | cons c cs ih =>
    by_cases hc : pyIsSpace c
    · simp only [ldropWs, List.cons_append, List.dropWhile_cons, hc, if_true] at h ⊢
      exact ih h
    · simp only [ldropWs, List.cons_append, List.dropWhile_cons, hc, if_false,
        Bool.false_eq_true] at h ⊢

theorem ldropWs_head (l : List Char) (d : Char) (t : List Char)
    (h : ldropWs l = d :: t) : pyIsSpace d = false := by
  induction l with
  | nil => simp [ldropWs] at h
  | cons c cs ih =>
    by_cases hc : pyIsSpace c
    · simp [ldropWs, List.dropWhile, hc] at h
      exact ih h
    · simp [ldropWs, List.dropWhile, hc] at h
      rw [← h.1]
      exact Bool.of_not_eq_true hc

theorem dropWhile_append_last (u : List Char) (d : Char) (hd : pyIsSpace d = false) :
    ∃ v, (u ++ [d]).dropWhile pyIsSpace = v ++ [d] := by
  induction u with
  | nil => exact ⟨[], by simp [List.dropWhile, hd]⟩
  | cons c u' ih =>
    by_cases hc : pyIsSpace c
    · simpa [List.dropWhile, hc] using ih
    · exact ⟨c :: u', by simp [List.dropWhile, hc]⟩

theorem rdropWs_cons (d : Char) (t : List Char) (hd : pyIsSpace d = false) :
    ∃ t', rdropWs (d :: t) = d :: t' := by
  obtain ⟨v, hv⟩ := dropWhile_append_last t.reverse d hd
  refine ⟨v.reverse, ?_⟩
  simp [rdropWs, hv]

theorem pyStripWs_good (f1 r : List Char) (h1 : ¬ pyStripWs f1 = [])
    (h2 : headIsDigit (pyStripWs f1) = true) :
    ¬ pyStripWs (f1 ++ r) = [] ∧ headIsDigit (pyStripWs (f1 ++ r)) = true := by
  rcases hld : ldropWs f1 with _ | ⟨d, tail⟩
  · exfalso; apply h1; simp [pyStripWs, hld, rdropWs]
  · have hd : pyIsSpace d = false := ldropWs_head f1 d tail hld
    obtain ⟨t', ht'⟩ := rdropWs_cons d tail hd
    have hh : headIsDigit (pyStripWs f1) = d.isDigit := by
      simp [pyStripWs, hld, ht', headIsDigit]
    have hdig : d.isDigit = true := by rw [← hh]; exact h2
    have happ : ldropWs (f1 ++ r) = d :: (tail ++ r) := by
      rw [ldropWs_append f1 r (by simp [hld])]
      simp [hld]
    obtain ⟨t'', ht''⟩ := rdropWs_cons d (tail ++ r) hd
    constructor
    · simp [pyStripWs, happ, ht'']
    · simp [pyStripWs, happ, ht'', headIsDigit, hdig]

theorem splitOnSep_ne_nil (sep : Char) (l : List Char) : splitOnSep sep l ≠ [] := by
  induction l with
  | nil => simp [splitOnSep]
  | cons c cs ih =>
    by_cases hc : c == sep
    · simp [splitOnSep, hc]
    · rcases hsp : splitOnSep sep cs with _ | ⟨f, rest⟩
      · exact absurd hsp ih
      · simp [splitOnSep, hc, hsp]

theorem split_head_append (sep : Char) (cs : List Char) (f : List Char)
    (rest : List (List Char)) (h : splitOnSep sep cs = f :: rest) :
    ∃ r, cs = f ++ r := by
  induction cs generalizing f rest with
  | nil =>
    simp [splitOnSep] at h
    exact ⟨[], by simp [h.1]⟩
  | cons c cs' ih =>
    by_cases hc : c == sep
    · simp [splitOnSep, hc] at h
      exact ⟨c :: cs', by simp [← h.1]⟩
    · rcases hsp : splitOnSep sep cs' with _ | ⟨f', rest'⟩
      · exact absurd hsp (splitOnSep_ne_nil sep cs')
      · simp [splitOnSep, hc, hsp] at h
        obtain ⟨r, hr⟩ := ih f' rest' hsp
        refine ⟨r, ?_⟩
        rw [← h.1]
        simp [hr]

theorem split_get1_suffix (sep : Char) (l : List Char) (f1 : List Char)
    (h : (splitOnSep sep l).get? 1 = some f1) :
    ∃ r, suffixAfterFirst sep l = f1 ++ r := by
  induction l with
  | nil => simp [splitOnSep] at h
  | cons c cs ih =>
    by_cases hc : c == sep
    · simp [splitOnSep, hc] at h
      rcases hsp : splitOnSep sep cs with _ | ⟨f, rest⟩
      · exact absurd hsp (splitOnSep_ne_nil sep cs)
      · rw [hsp] at h
        simp at h
        obtain ⟨r, hr⟩ := split_head_append sep cs f rest hsp
        refine ⟨r, ?_⟩
        simp [suffixAfterFirst, hc, hr, ← h]
    · rcases hsp : splitOnSep sep cs with _ | ⟨f, rest⟩
      · exact absurd hsp (splitOnSep_ne_nil sep cs)
      · simp [splitOnSep, hc, hsp] at h
        rw [show suffixAfterFirst sep (c :: cs) = suffixAfterFirst sep cs by
          simp [suffixAfterFirst, hc]]
        apply ih
        rw [hsp]
        simpa using h

theorem siteA_invalid_unavailable : ∀ (env : EnvA) (isbn t : String),
    env.priceText = .ok t →
    ((pyStripWs (suffixAfterFirst '$' t.data)).isEmpty = true ∨
      headIsDigit (pyStripWs (suffixAfterFirst '$' t.data)) = false) →
    fetch_bookscouter_data env isbn = .ok "N/A" := by
  intro env isbn t ht hval
  rcases h1 : env.nav with e | u
  · exact fetchA_err env isbn e (by simp [bookscouterTryBody, h1])
  · rcases h2 : env.waitPrice with e | u2
    · exact fetchA_err env isbn e (by simp [bookscouterTryBody, h1, h2])
    · rcases hget : (splitOnSep '$' t.data).get? 1 with _ | f1
      · rw [List.get?_eq_getElem?] at hget
        exact fetchA_err env isbn .indexErrorEx
          (by simp [bookscouterTryBody, h1, h2, ht, hget])
      · have hget2 : (splitOnSep '$' t.data)[1]? = some f1 := by
          rw [← List.get?_eq_getElem?]
          exact hget
        by_cases hcond : ((pyStripWs f1).isEmpty || !headIsDigit (pyStripWs f1)) = true
        · have hbody : bookscouterTryBody env isbn = .ok "N/A" := by
            simp only [bookscouterTryBody, h1, h2, ht, hget, hget2, hcond, if_true]
          unfold fetch_bookscouter_data
          rw [hbody]
        · exfalso
          simp only [Bool.or_eq_true, Bool.not_eq_true', not_or] at hcond
          obtain ⟨hne, hdig⟩ := hcond
          have hne' : ¬ pyStripWs f1 = [] := by
            intro hh
            simp [hh] at hne
          have hdig' : headIsDigit (pyStripWs f1) = true := by
            rcases hd : headIsDigit (pyStripWs f1)
            · exact absurd hd hdig
            · rfl
          obtain ⟨r, hr⟩ := split_get1_suffix '$' t.data f1 hget
          obtain ⟨hg1, hg2⟩ := pyStripWs_good f1 r hne' hdig'
          rw [hr] at hval
          rcases hval with hv | hv
          · exact hg1 (List.isEmpty_iff.mp hv)
          · rw [hg2] at hv
            simp at hv

theorem siteB_invalid_unavailable : ∀ (env : EnvB) (isbn t : String),
    env.profitText = .ok t →
    probeFires env = false →
    ((pyStripDollar t.data).isEmpty = true ∨ headIsDigit (pyStripDollar t.data) = false) →
    fetch_restricted_inventory_data env isbn = .ok "N/A" := by
  intro env isbn t ht hp hval
  unfold fetch_restricted_inventory_data restrictedTryBody
  rcases h1 : env.nav with e | u
  · cases e <;> rfl
  · rcases h2 : env.waitSearchBar with e | u2
    · cases e <;> rfl
    · rcases h3 : env.clearBar with e | u3
      · cases e <;> rfl
      · rcases h4 : env.sendKeys with e | u4
        · cases e <;> rfl
        · rcases h5 : env.waitButton with e | u5
          · cases e <;> rfl
          · rcases h6 : env.clickButton with e | u6
            · cases e <;> rfl
            · rcases h7 : notProfitableProbe env with e | o
              · cases e <;> rfl
              · rcases o with _ | r
                · rcases h8 : env.waitProfit with e | u7
                  · cases e <;> rfl
                  · rw [ht]
                    rcases hval with hv | hv <;> simp [hv]
                · exfalso
                  simp [probeFires, h7] at hp
  -- leftover?

theorem process_batch_pairs (envOf : PyVal → ProcEnv) (items : List (String × Nat)) :
    ∃ rs, process_batch envOf (items.map fun p => PyVal.pair (.str p.1) (.int p.2)) = .ok rs ∧
      rs.length = items.length ∧
      rs.map (fun r => r.RowIndex) = items.map (fun p => PyVal.int p.2) := by
  induction items with
  | nil => exact ⟨[], by simp [process_batch], by simp, by simp⟩
  | cons p rest ih =>
    obtain ⟨rs, hrs, hlen, hmap⟩ := ih
    obtain ⟨a, b, hpi⟩ :=
      process_isbn_eval (envOf (PyVal.pair (.str p.1) (.int p.2))) (.str p.1) (.int p.2)
    refine ⟨⟨.str p.1, a, b, .int p.2⟩ :: rs, ?_, by simp [hlen], by simp [hmap]⟩
    simp only [List.map_cons, process_batch, batchItem, pyIndex, hpi, hrs]

theorem unpack2_str_ne2 (t : List Char) (h : t.length ≠ 2) :
    unpack2 (.str (String.mk t)) = .error .valueErrorEx := by
  rcases t with _ | ⟨c1, _ | ⟨c2, _ | ⟨c3, t'⟩⟩⟩ <;> simp [unpack2] at h ⊢

theorem batch_bad_token (envOf : PyVal → ProcEnv) (toks : List (List Char))
    (h : ∃ tok ∈ toks, tok.length ≠ 2) :
    (process_isbn_batch envOf (toks.map fun l => PyVal.str (String.mk l))).1 =
      .error .valueErrorEx := by
  induction toks with
  | nil => simp at h
  | cons t0 rest ih =>
    by_cases h0 : t0.length = 2
    · rcases t0 with _ | ⟨c1, _ | ⟨c2, _ | ⟨c3, t'⟩⟩⟩ <;> simp at h0
      have hu : unpack2 (.str (String.mk [c1, c2])) =
          .ok (.str (String.mk [c1]), .str (String.mk [c2])) := rfl
      obtain ⟨a, b, hpi⟩ :=
        process_isbn_eval (envOf (.str (String.mk [c1, c2])))
          (.str (String.mk [c1])) (.str (String.mk [c2]))
      have hrest : ∃ tok ∈ rest, tok.length ≠ 2 := by
        obtain ⟨tok, htok, hl⟩ := h
        rcases List.mem_cons.mp htok with rfl | h'
        · exact absurd rfl hl
        · exact ⟨tok, h', hl⟩
      have ihv := ih hrest
      rcases hpb : process_isbn_batch envOf (rest.map fun l => PyVal.str (String.mk l))
        with ⟨res, tr⟩
      rw [hpb] at ihv
      have ihv' : res = .error .valueErrorEx := ihv
      simp only [List.map_cons, process_isbn_batch, hu, hpi, hpb, ihv']
      rfl
    · simp only [List.map_cons, process_isbn_batch, unpack2_str_ne2 t0 h0]

theorem any_key_map_repl (docs : List (String × StatusRecord)) (isbn : String)
    (v : StatusRecord) :
    ((docs.map fun p => if p.1 = isbn then (isbn, v) else p).any fun p => p.1 == isbn) =
      docs.any fun p => p.1 == isbn := by
  induction docs with
  | nil => rfl
  | cons p t ih =>
    by_cases hp : p.1 = isbn
    · simp [hp, ih]
    · simp [hp, ih]

theorem docSet_twice (docs : List (String × StatusRecord)) (isbn : String)
    (v1 v2 : StatusRecord) :
    docSet (docSet docs isbn v1) isbn v2 = docSet docs isbn v2 := by
  rcases hany : docs.any fun p => p.1 == isbn
  · have hall : ∀ p ∈ docs, (p.1 == isbn) = false := by
      intro p hp
      rcases hb : p.1 == isbn
      · rfl
      · exfalso
        rw [List.any_eq_false] at hany
        exact absurd hb (by simpa using hany p hp)
    have h1 : docSet docs isbn v1 = docs ++ [(isbn, v1)] := by
      simp [docSet, hany]
    have h2 : (docs ++ [(isbn, v1)]).any (fun p => p.1 == isbn) = true := by
      simp [List.any_append]
    have hmapid : ∀ (v : StatusRecord),
        (docs.map fun p => if p.1 = isbn then (isbn, v) else p) = docs := by
      intro v
      rw [List.map_congr_left (g := id) ?_, List.map_id]
      intro p hp
      have := hall p hp
      simp only [beq_eq_false_iff_ne, ne_eq] at this
      simp [this]
    rw [h1]
    simp only [docSet, h2, if_true, hany, Bool.false_eq_true, if_false]
    rw [List.map_append, hmapid v2]
    simp
  · have h1 : docSet docs isbn v1 = docs.map fun p => if p.1 = isbn then (isbn, v1) else p := by
      simp [docSet, hany]
    have h2 : ((docs.map fun p => if p.1 = isbn then (isbn, v1) else p).any
        fun p => p.1 == isbn) = true := by
      rw [any_key_map_repl]
      exact hany
    rw [h1]
    simp only [docSet, h2, if_true, hany]
    rw [List.map_map]
    apply List.map_congr_left
    intro p _
    by_cases hp : p.1 = isbn <;> simp [hp]

theorem filter_key_len (docs : List (String × StatusRecord)) (isbn : String)
    (hnd : (docs.map Prod.fst).Nodup) (hin : isbn ∈ docs.map Prod.fst) :
    (docs.filter fun p => p.1 == isbn).length = 1 := by
  induction docs with
  | nil => simp at hin
  | cons p t ih =>
    simp only [List.map_cons, List.nodup_cons] at hnd
    rcases List.mem_cons.mp hin with he | he
    · have hfilt : (t.filter fun q => q.1 == isbn).length = 0 := by
        rw [List.length_eq_zero, List.filter_eq_nil_iff]
        intro q hq
        simp only [beq_eq_false_iff_ne, ne_eq, beq_iff_eq]
        intro hc
        apply hnd.1
        rw [← he, ← hc]
        exact List.mem_map_of_mem Prod.fst hq
      simp [List.filter_cons, he.symm, hfilt]
    · have hp : (p.1 == isbn) = false := by
        simp only [beq_eq_false_iff_ne, ne_eq]
        intro hc
        exact hnd.1 (hc ▸ he)
      simp only [List.filter_cons, hp, Bool.false_eq_true, if_false]
      exact ih hnd.2 he

theorem lookup_append_absent (docs : List (String × StatusRecord)) (isbn : String)
    (v : StatusRecord) (hall : ∀ p ∈ docs, (p.1 == isbn) = false) :
    (docs ++ [(isbn, v)]).lookup isbn = some v := by
  induction docs with
  | nil => simp [List.lookup]
  | cons p t ih =>
    have hp := hall p (by simp)
    have : (isbn == p.1) = false := by
      simp only [beq_eq_false_iff_ne, ne_eq] at hp ⊢
      exact fun hc => hp hc.symm
    simp only [List.cons_append, List.lookup, this]
    exact ih fun q hq => hall q (by simp [hq])

theorem lookup_map_repl (docs : List (String × StatusRecord)) (isbn : String)
    (v : StatusRecord) (hin : isbn ∈ docs.map Prod.fst) :
    ((docs.map fun p => if p.1 = isbn then (isbn, v) else p).lookup isbn) = some v := by
  induction docs with
  | nil => simp at hin
  | cons p t ih =>
    by_cases hp : p.1 = isbn
    · rw [List.map_cons, if_pos hp]
      simp [List.lookup]
    · rw [List.map_cons, if_neg hp]
      have hne : (isbn == p.1) = false := by
        simp only [beq_eq_false_iff_ne, ne_eq]
        exact fun hc => hp hc.symm
      simp only [List.lookup, hne]
      apply ih
      rcases List.mem_cons.mp hin with he | he
      · exact absurd he.symm hp
      · exact he

theorem liveSessions_nil : liveSessions [] = 0 := rfl

theorem liveSessions_cons (e : Event) (tr : List Event) :
    liveSessions (e :: tr) = eventDelta e + liveSessions tr := by
  cases e <;> simp [liveSessions, eventDelta, List.count_cons] <;> ring

theorem count_true_set_true : ∀ (bs : List Bool) (i : Nat) (h : i < bs.length),
    bs.get ⟨i, h⟩ = false → (bs.set i true).count true = bs.count true + 1 := by
  intro bs
  induction bs with
  | nil => intro i h; simp at h
  | cons b t ih =>
    intro i h hb
    cases i with
    | zero =>
      simp only [List.get] at hb
      simp [List.set, hb, List.count_cons]
    | succ j =>
      simp only [List.get] at hb
      have := ih j (by simpa using h) hb
      simp [List.set, List.count_cons, this]
      cases b <;> simp

theorem count_true_set_false : ∀ (bs : List Bool) (i : Nat) (h : i < bs.length),
    bs.get ⟨i, h⟩ = true → bs.count true = (bs.set i false).count true + 1 := by
  intro bs
  induction bs with
  | nil => intro i h; simp at h
  | cons b t ih =>
    intro i h hb
    cases i with
    | zero =>
      simp only [List.get] at hb
      simp [List.set, hb, List.count_cons]
    | succ j =>
      simp only [List.get] at hb
      have := ih j (by simpa using h) hb
      simp [List.set, List.count_cons]
      cases b <;> simp <;> omega

theorem set_true_of_get_true : ∀ (bs : List Bool) (i : Nat) (h : i < bs.length),
    bs.get ⟨i, h⟩ = true → bs.set i true = bs := by
  intro bs
  induction bs with
  | nil => intro i h; simp at h
  | cons b t ih =>
    intro i h hb
    cases i with
    | zero =>
      simp only [List.get] at hb
      simp [List.set, hb]
    | succ j =>
      simp only [List.get] at hb
      simp [List.set, ih j (by simpa using h) hb]

theorem eventDelta_neutral (e : Event) (h1 : e ≠ .sessionOpen) (h2 : e ≠ .sessionClose) :
    eventDelta e = 0 := by
  cases e <;> simp [eventDelta] at h1 h2 ⊢

theorem serialFrom_false_cons (e : Event) (es : List Event)
    (h : SerialFrom false (e :: es)) :
    e = .sessionOpen ∧ SerialFrom true es := by
  generalize hl : e :: es = l at h
  cases h with
  | nil => simp at hl
  | item mid rest' hm hr =>
    injection hl with h1 h2
    subst h1
    subst h2
    exact ⟨rfl, SerialFrom.inItem mid rest' hm hr⟩

theorem serialFrom_true_cons (e : Event) (es : List Event)
    (h : SerialFrom true (e :: es)) :
    (e = .sessionClose ∧ SerialFrom false es) ∨
    (e ≠ .sessionOpen ∧ e ≠ .sessionClose ∧ SerialFrom true es) := by
  generalize hl : e :: es = l at h
  cases h with
  | inItem mid rest' hm hr =>
    cases mid with
    | nil =>
      simp only [List.nil_append] at hl
      cases hl
      exact Or.inl ⟨rfl, hr⟩
    | cons m mid' =>
      simp only [List.cons_append] at hl
      cases hl
      refine Or.inr ⟨fun hc => hm.1 (by simp [hc]), fun hc => hm.2 (by simp [hc]),
        SerialFrom.inItem mid' rest' ⟨?_, ?_⟩ hr⟩
      · exact fun hc => hm.1 (by simp [hc])
      · exact fun hc => hm.2 (by simp [hc])

theorem inv_set (ws : List (List Event)) (bs : List Bool)
    (hsf : ∀ (j : Nat) (h1 : j < ws.length) (h2 : j < bs.length),
      SerialFrom (bs.get ⟨j, h2⟩) (ws.get ⟨j, h1⟩))
    (i : Nat) (w' : List Event) (b' : Bool) (hnew : SerialFrom b' w') :
    ∀ (j : Nat) (h1 : j < (ws.set i w').length) (h2 : j < (bs.set i b').length),
      SerialFrom ((bs.set i b').get ⟨j, h2⟩) ((ws.set i w').get ⟨j, h1⟩) := by
  intro j h1 h2
  rw [List.length_set] at h1 h2
  by_cases hj : j = i
  · subst hj
    have hj1 : j < (ws.set j w').length := by simpa using h1
    have hj2 : j < (bs.set j b').length := by simpa using h2
    rw [List.get_eq_getElem, List.get_eq_getElem]
    rw [List.getElem_set_self, List.getElem_set_self]
    exact hnew
  · rw [List.get_eq_getElem, List.get_eq_getElem]
    rw [List.getElem_set_ne fun hc => hj hc.symm, List.getElem_set_ne fun hc => hj hc.symm]
    exact hsf j h1 h2

theorem interleave_bound : ∀ (sched : List Nat) (ws : List (List Event)) (bs : List Bool),
    ws.length = bs.length →
    (∀ (j : Nat) (h1 : j < ws.length) (h2 : j < bs.length),
      SerialFrom (bs.get ⟨j, h2⟩) (ws.get ⟨j, h1⟩)) →
    liveSessions (interleave ws sched) ≤ (ws.length : Int) - (bs.count true : Int) := by
  intro sched
  induction sched with
  | nil =>
    intro ws bs hlen _
    have hc : bs.count true ≤ bs.length := List.count_le_length true bs
    simp only [interleave, liveSessions_nil]
    omega
  | cons i rest ih =>
    intro ws bs hlen hsf
    rcases hw : ws.get? i with _ | w
    · simp only [interleave, hw]
      exact ih ws bs hlen hsf
    · rcases w with _ | ⟨e, es⟩
      · simp only [interleave, hw]
        exact ih ws bs hlen hsf
      · obtain ⟨hlt, hget⟩ := List.get?_eq_some.mp hw
        have hlt2 : i < bs.length := hlen ▸ hlt
        have hsfi := hsf i hlt hlt2
        rw [hget] at hsfi
        have hout : interleave ws (i :: rest) = e :: interleave (ws.set i es) rest := by
          simp only [interleave, hw]
        rcases hb : bs.get ⟨i, hlt2⟩
        · rw [hb] at hsfi
          obtain ⟨hopen, htrue⟩ := serialFrom_false_cons e es hsfi
          have hih := ih (ws.set i es) (bs.set i true) (by simp [hlen])
            (inv_set ws bs hsf i es true htrue)
          have hcnt := count_true_set_true bs i hlt2 hb
          rw [hout, liveSessions_cons, hopen]
          simp only [eventDelta]
          simp only [List.length_set] at hih
          rw [hcnt] at hih
          push_cast at hih ⊢
          omega
        · rw [hb] at hsfi
          rcases serialFrom_true_cons e es hsfi with ⟨hclose, hfalse⟩ | ⟨hno, hnc, htrue⟩
          · have hih := ih (ws.set i es) (bs.set i false) (by simp [hlen])
              (inv_set ws bs hsf i es false hfalse)
            have hcnt := count_true_set_false bs i hlt2 hb
            rw [hout, liveSessions_cons, hclose]
            simp only [eventDelta]
            simp only [List.length_set] at hih
            omega
          · have hih := ih (ws.set i es) (bs.set i true) (by simp [hlen])
              (inv_set ws bs hsf i es true htrue)
            rw [hout, liveSessions_cons, eventDelta_neutral e hno hnc]
            rw [set_true_of_get_true bs i hlt2 hb] at hih
            simp only [List.length_set] at hih
            omega

theorem take_interleave : ∀ (sched : List Nat) (ws : List (List Event)) (k : Nat),
    ∃ m, (interleave ws sched).take k = interleave ws (sched.take m) := by
  intro sched
  induction sched with
  | nil =>
    intro ws k
    exact ⟨0, by simp [interleave]⟩
  | cons i rest ih =>
    intro ws k
    rcases hw : ws.get? i with _ | w
    · obtain ⟨m, hm⟩ := ih ws k
      refine ⟨m + 1, ?_⟩
      simp only [interleave, hw, List.take_succ_cons]
      exact hm
    · rcases w with _ | ⟨e, es⟩
      · obtain ⟨m, hm⟩ := ih ws k
        refine ⟨m + 1, ?_⟩
        simp only [interleave, hw, List.take_succ_cons]
        exact hm
      · cases k with
        | zero => exact ⟨0, by simp [interleave]⟩
        | succ k' =>
          obtain ⟨m, hm⟩ := ih (ws.set i es) k'
          refine ⟨m + 1, ?_⟩
          simp only [interleave, hw, List.take_succ_cons]
          rw [hm]

theorem worker_serial (envOf : PyVal → ProcEnv) (queue : List PyVal) :
    SerialFrom false (workerQueueTrace envOf queue) := by
  induction queue with
  | nil => exact SerialFrom.nil
  | cons v rest ih =>
    have hflat : workerQueueTrace envOf (v :: rest) =
        (match pyIndex v 0 with
          | .error _ => []
          | .ok i =>
            match pyIndex v 1 with
            | .error _ => []
            | .ok r => (process_isbn (envOf v) i r).2) ++ workerQueueTrace envOf rest := by
      simp [workerQueueTrace]
    rcases h0 : pyIndex v 0 with e | i
    · rw [hflat, h0]
      simpa using ih
    · rcases h1 : pyIndex v 1 with e | r
      · rw [hflat, h0, h1]
        simpa using ih
      · obtain ⟨a, b, hpi⟩ := process_isbn_eval (envOf v) i r
        rw [hflat, h0, h1]
        show SerialFrom false ((process_isbn (envOf v) i r).2 ++ workerQueueTrace envOf rest)
        rw [hpi]
        exact SerialFrom.item [.extractA, .extractB] (workerQueueTrace envOf rest)
          ⟨by simp, by simp⟩ ih

/-- Claim C1: for every ISBN string and every outcome of navigation, waiting
and parsing, `fetch_bookscouter_data` and `fetch_restricted_inventory_data`
never let an exception escape: both always return (`.ok`), and whenever the
`try` body raises — timeout, missing element, stale reference, or anything
else — the call returns the `'N/A'` sentinel instead. -/
theorem claim_C1 : ∀ (envA : EnvA) (envB : EnvB) (isbn : String),
    (∃ s, fetch_bookscouter_data envA isbn = .ok s) ∧
    (∃ s, fetch_restricted_inventory_data envB isbn = .ok s) ∧
    ((bookscouterTryBody envA isbn).isOk = false →
      fetch_bookscouter_data envA isbn = .ok "N/A") ∧
    ((restrictedTryBody envB isbn).isOk = false →
      fetch_restricted_inventory_data envB isbn = .ok "N/A") := by
  intro envA envB isbn
  refine ⟨fetchA_ok envA isbn, fetchB_ok envB isbn, ?_, ?_⟩
  · intro h
    unfold fetch_bookscouter_data
    rcases he : bookscouterTryBody envA isbn with e | s
    · cases e <;> rfl
    · rw [he] at h; simp [Except.isOk, Except.toBool] at h
  · intro h
    unfold fetch_restricted_inventory_data
    rcases he : restrictedTryBody envB isbn with e | s
    · cases e <;> rfl
    · rw [he] at h; simp [Except.isOk, Except.toBool] at h

/-- Witness for C1: at environments whose navigation raises, both fetchers
return `'N/A'`. -/
theorem claim_C1_witness :
    fetch_bookscouter_data envAerr "0000000000" = .ok "N/A" ∧
    fetch_restricted_inventory_data envBerr "0000000000" = .ok "N/A" :=
  ⟨(claim_C1 envAerr envBerr "0000000000").2.2.1 (by decide),
    (claim_C1 envAerr envBerr "0000000000").2.2.2 (by decide)⟩

/-- Claim C2: for every batch of N items with pairwise distinct `row_index`
values, `process_batch` returns exactly N Processing Results whose
`RowIndex` values are exactly the input row indices, each exactly once
(the result list's row indices equal the input's in order and are
duplicate-free). -/
theorem claim_C2 : ∀ (envOf : PyVal → ProcEnv) (items : List (String × Nat)),
    (items.map Prod.snd).Nodup →
    ∃ rs, process_batch envOf (items.map fun p => PyVal.pair (.str p.1) (.int p.2)) = .ok rs ∧
      rs.length = items.length ∧
      rs.map (fun r => r.RowIndex) = items.map (fun p => PyVal.int p.2) ∧
      (rs.map fun r => r.RowIndex).Nodup := by
  intro envOf items hnd
  obtain ⟨rs, hrs, hlen, hmap⟩ := process_batch_pairs envOf items
  refine ⟨rs, hrs, hlen, hmap, ?_⟩
  rw [hmap]
  have h2 : (items.map fun p => PyVal.int p.2) = (items.map Prod.snd).map PyVal.int := by
    simp [List.map_map]
  rw [h2]
  exact hnd.map fun x y h => by injection h

/-- Witness for C2: a concrete two-item batch with distinct rows. -/
theorem claim_C2_witness :
    ∃ rs, process_batch envOf0 (([("111", 2), ("222", 3)] : List (String × Nat)).map
        fun p => PyVal.pair (.str p.1) (.int p.2)) = .ok rs ∧
      rs.length = ([("111", 2), ("222", 3)] : List (String × Nat)).length ∧
      rs.map (fun r => r.RowIndex) =
        ([("111", 2), ("222", 3)] : List (String × Nat)).map (fun p => PyVal.int p.2) ∧
      (rs.map fun r => r.RowIndex).Nodup :=
  claim_C2 envOf0 [("111", 2), ("222", 3)] (by decide)

/-- Counterexample for C3 as stated: the price text `"$1$2"` contains a
currency marker followed by a numeral, yet site-A extraction returns `"1"`
(the `split('$')[1]` field), not the trimmed substring after the marker,
which is `"1$2"`. -/
theorem claim_C3_counterexample :
    fetch_bookscouter_data envA_multi "0000000000" = .ok "1" ∧
    siteA_spec_extract "$1$2" = "1$2" ∧ ("1" : String) ≠ "1$2" := by
  refine ⟨?_, ?_, ?_⟩ <;> decide

/-- Claim C3 (amended): for every price text, if the field strictly between
the first currency marker and the next marker (or the end of the text) —
which is `split('$')[1]` — is, once trimmed of whitespace, nonempty and
begins with a numeral, then site-A extraction returns exactly that trimmed
field. -/
theorem claim_C3 : ∀ (env : EnvA) (isbn t : String) (f1 : List Char),
    env.nav = .ok () → env.waitPrice = .ok () → env.priceText = .ok t →
    (splitOnSep '$' t.data).get? 1 = some f1 →
    (pyStripWs f1).isEmpty = false → headIsDigit (pyStripWs f1) = true →
    fetch_bookscouter_data env isbn = .ok (String.mk (pyStripWs f1)) := by
  intro env isbn t f1 h1 h2 h3 h4 h5 h6
  rw [List.get?_eq_getElem?] at h4
  have hne : pyStripWs f1 ≠ [] := by
    intro hh
    simp [hh] at h5
  have hbody : bookscouterTryBody env isbn = .ok (String.mk (pyStripWs f1)) := by
    simp [bookscouterTryBody, h1, h2, h3, h4, hne, h6]
  unfold fetch_bookscouter_data
  rw [hbody]

/-- Witness for C3: the single-marker text `"$12.50"` extracts to `"12.50"`. -/
theorem claim_C3_witness :
    fetch_bookscouter_data envA_single "0000000000" =
      .ok (String.mk (pyStripWs ['1', '2', '.', '5', '0'])) :=
  claim_C3 envA_single "0000000000" "$12.50" ['1', '2', '.', '5', '0']
    rfl rfl rfl (by decide) (by decide) (by decide)

/-- Claim C4: whenever the extracted value — the trimmed text after the
currency marker for site A (`suffixAfterFirst`), or the profit text with
the marker stripped from both ends for site B — is empty or does not begin
with a digit, extraction returns the `'N/A'` sentinel, not an error (the
site-B part is conditional on the not-profitable early return not firing,
which C5 covers). -/
theorem claim_C4 : ∀ (envA : EnvA) (envB : EnvB) (isbn : String),
    (∀ t : String, envA.priceText = .ok t →
      ((pyStripWs (suffixAfterFirst '$' t.data)).isEmpty = true ∨
        headIsDigit (pyStripWs (suffixAfterFirst '$' t.data)) = false) →
      fetch_bookscouter_data envA isbn = .ok "N/A") ∧
    (∀ t : String, envB.profitText = .ok t → probeFires envB = false →
      ((pyStripDollar t.data).isEmpty = true ∨ headIsDigit (pyStripDollar t.data) = false) →
      fetch_restricted_inventory_data envB isbn = .ok "N/A") := by
  intro envA envB isbn
  exact ⟨fun t ht hv => siteA_invalid_unavailable envA isbn t ht hv,
    fun t ht hp hv => siteB_invalid_unavailable envB isbn t ht hp hv⟩

/-- Witness for C4: a markerless site-A text and a site-B profit text that
strips to the empty string both yield `'N/A'`. -/
theorem claim_C4_witness :
    fetch_bookscouter_data envAbad "0000000000" = .ok "N/A" ∧
    fetch_restricted_inventory_data envBbad "0000000000" = .ok "N/A" :=
  ⟨(claim_C4 envAbad envBbad "0000000000").1 "abc" rfl (by decide),
    (claim_C4 envAbad envBbad "0000000000").2 "$$" rfl (by decide) (by decide)⟩

/-- Claim C5: for site B, when the "not profitable" indicator element is
present (its wait and text read succeed) and its text matches the known
phrase, `fetch_restricted_inventory_data` returns the `'Not profitable'`
sentinel — regardless of the profit element's content, which is left
unconstrained in the environment. -/
theorem claim_C5 : ∀ (env : EnvB) (isbn t : String),
    env.nav = .ok () → env.waitSearchBar = .ok () → env.clearBar = .ok () →
    env.sendKeys = .ok () → env.waitButton = .ok () → env.clickButton = .ok () →
    env.waitModel = .ok () → env.modelText = .ok t →
    containsSeq notProfitablePhrase.data t.data = true →
    fetch_restricted_inventory_data env isbn = .ok "Not profitable" := by
  intro env isbn t h1 h2 h3 h4 h5 h6 h7 h8 h9
  simp [fetch_restricted_inventory_data, restrictedTryBody, notProfitableProbe,
    h1, h2, h3, h4, h5, h6, h7, h8, h9]

/-- Witness for C5: the indicator carries exactly the known phrase while the
profit element holds `"999"`. -/
theorem claim_C5_witness :
    fetch_restricted_inventory_data envBnp "0000000000" = .ok "Not profitable" :=
  claim_C5 envBnp "0000000000" notProfitablePhrase
    rfl rfl rfl rfl rfl rfl rfl rfl (by decide)

/-- Claim C6: for every ISBN item and every outcome of the two extraction
calls — including raising ones — `process_isbn` opens exactly one session,
the trace starts with the open and ends with the close (so the `finally`
closes the session on every exit path), and every site-A extraction event
precedes every site-B extraction event. -/
theorem claim_C6 : ∀ (fa fb : Except PyExn String) (isbn row : PyVal),
    ((process_isbn_core fa fb isbn row).2.count .sessionOpen = 1) ∧
    ((process_isbn_core fa fb isbn row).2.count .sessionClose = 1) ∧
    ((process_isbn_core fa fb isbn row).2.head? = some .sessionOpen) ∧
    ((process_isbn_core fa fb isbn row).2.getLast? = some .sessionClose) ∧
    (∀ (i j : Fin (process_isbn_core fa fb isbn row).2.length),
      (process_isbn_core fa fb isbn row).2.get i = .extractA →
      (process_isbn_core fa fb isbn row).2.get j = .extractB → (i : Nat) < (j : Nat)) := by
  intro fa fb isbn row
  rcases fa with e | a <;> rcases fb with f | b <;> simp [process_isbn_core] <;> decide

/-- Claim C7: on the queue-triggered batch path, for every batch whose
elements all unpack, the trace of `process_isbn_batch` is exactly, per
item in order, the item's produced-result event immediately followed by
its `'processed'` status mark — so the mark happens exactly once per item,
after that item's result and before the next item is processed. -/
theorem claim_C7 : ∀ (envOf : PyVal → ProcEnv) (batch : List PyVal),
    (∀ v ∈ batch, ∃ p, unpack2 v = .ok p) →
    (process_isbn_batch envOf batch).2 = batch.flatMap eventsFor ∧
    (∃ rs, (process_isbn_batch envOf batch).1 = .ok rs) := by
  intro envOf batch h
  induction batch with
  | nil => exact ⟨rfl, [], rfl⟩
  | cons v rest ih =>
    obtain ⟨⟨i, r⟩, hu⟩ := h v (by simp)
    obtain ⟨a, b, hpi⟩ := process_isbn_eval (envOf v) i r
    obtain ⟨ih1, rs, ih2⟩ := ih fun w hw => h w (by simp [hw])
    rcases hrest : process_isbn_batch envOf rest with ⟨res, tr⟩
    rw [hrest] at ih1 ih2
    have ih1' : tr = rest.flatMap eventsFor := ih1
    have ih2' : res = .ok rs := ih2
    constructor
    · simp only [process_isbn_batch, hu, hpi, hrest]
      simp [eventsFor, hu, ih1']
    · refine ⟨⟨i, a, b, r⟩ :: rs, ?_⟩
      simp only [process_isbn_batch, hu, hpi, hrest, ih2']
      rfl

/-- Witness for C7: a one-element batch of a proper (isbn, row) pair. -/
theorem claim_C7_witness :
    (process_isbn_batch envOf0 [PyVal.pair (.str "111") (.int 2)]).2 =
      [PyVal.pair (.str "111") (.int 2)].flatMap eventsFor ∧
    (∃ rs, (process_isbn_batch envOf0 [PyVal.pair (.str "111") (.int 2)]).1 = .ok rs) :=
  claim_C7 envOf0 [PyVal.pair (.str "111") (.int 2)]
    (fun v hv => by
      simp only [List.mem_singleton] at hv
      subst hv
      exact ⟨(.str "111", .int 2), rfl⟩)

/-- Claim C8: on a well-formed store (one record per key), calling
`update_processing_status` twice with the same ISBN and status is the same
store transformation as calling it once at the later time — exactly one
record remains for that ISBN and it carries the second (later) call's
timestamp. -/
theorem claim_C8 : ∀ (docs : List (String × StatusRecord)) (t1 t2 : Nat)
    (isbn status : String), (docs.map Prod.fst).Nodup →
    (update_processing_status (update_processing_status docs t1 isbn status) t2 isbn status =
      update_processing_status docs t2 isbn status) ∧
    (((update_processing_status (update_processing_status docs t1 isbn status) t2 isbn status).filter
        fun p => p.1 == isbn).length = 1) ∧
    ((update_processing_status (update_processing_status docs t1 isbn status) t2 isbn status).lookup
        isbn = some ⟨status, t2⟩) := by
  intro docs t1 t2 isbn status hnd
  have heq : update_processing_status (update_processing_status docs t1 isbn status) t2
      isbn status = update_processing_status docs t2 isbn status :=
    docSet_twice docs isbn ⟨status, t1⟩ ⟨status, t2⟩
  refine ⟨heq, ?_, ?_⟩
  · rw [heq]
    unfold update_processing_status docSet
    rcases hany : docs.any fun p => p.1 == isbn
    · have hall : ∀ p ∈ docs, (p.1 == isbn) = false := by
        intro p hp
        rcases hb : p.1 == isbn
        · rfl
        · exfalso
          rw [List.any_eq_false] at hany
          exact absurd hb (by simpa using hany p hp)
      simp only [Bool.false_eq_true, if_false]
      rw [List.filter_append]
      rw [List.filter_eq_nil_iff.mpr fun p hp => by simp [hall p hp]]
      simp
    · simp only [if_true]
      rw [List.filter_map]
      rw [List.length_map]
      have hcongr : docs.filter ((fun p => p.1 == isbn) ∘
          fun p => if p.1 = isbn then (isbn, ⟨status, t2⟩) else p) =
          docs.filter fun p => p.1 == isbn := by
        apply List.filter_congr
        intro p _
        by_cases hp : p.1 = isbn <;> simp [hp]
      rw [hcongr]
      apply filter_key_len docs isbn hnd
      rw [List.any_eq_true] at hany
      obtain ⟨p, hp, hb⟩ := hany
      rw [List.mem_map]
      exact ⟨p, hp, by simpa using hb⟩
  · rw [heq]
    unfold update_processing_status docSet
    rcases hany : docs.any fun p => p.1 == isbn
    · have hall : ∀ p ∈ docs, (p.1 == isbn) = false := by
        intro p hp
        rcases hb : p.1 == isbn
        · rfl
        · exfalso
          rw [List.any_eq_false] at hany
          exact absurd hb (by simpa using hany p hp)
      simp only [Bool.false_eq_true, if_false]
      exact lookup_append_absent docs isbn ⟨status, t2⟩ hall
    · simp only [if_true]
      apply lookup_map_repl
      rw [List.any_eq_true] at hany
      obtain ⟨p, hp, hb⟩ := hany
      rw [List.mem_map]
      exact ⟨p, hp, by simpa using hb⟩

/-- Witness for C8: a concrete store with one unrelated record. -/
theorem claim_C8_witness :
    update_processing_status
        (update_processing_status [("x", ⟨"failed", 0⟩)] 1 "111" "processed")
        2 "111" "processed" =
      update_processing_status [("x", ⟨"failed", 0⟩)] 2 "111" "processed" :=
  (claim_C8 [("x", ⟨"failed", 0⟩)] 1 2 "111" "processed" (by decide)).1

/-- Claim C9: for every partition of a batch across at most
`CONCURRENT_BROWSERS` worker queues (each worker running its items to
completion one at a time, as the fixed-size executor does) and every
interleaving schedule, at every point of the resulting event trace the
number of simultaneously open Extraction Sessions never exceeds
`CONCURRENT_BROWSERS`. -/
theorem claim_C9 : ∀ (envOf : PyVal → ProcEnv) (assignment : List (List PyVal))
    (sched : List Nat) (k : Nat),
    assignment.length ≤ CONCURRENT_BROWSERS →
    liveSessions ((interleave (assignment.map (workerQueueTrace envOf)) sched).take k) ≤
      (CONCURRENT_BROWSERS : Int) := by
  intro envOf assignment sched k hlen
  obtain ⟨m, hm⟩ := take_interleave sched (assignment.map (workerQueueTrace envOf)) k
  rw [hm]
  have hb := interleave_bound (sched.take m) (assignment.map (workerQueueTrace envOf))
    (List.replicate (assignment.map (workerQueueTrace envOf)).length false)
    (by simp) ?_
  · have hc : (List.replicate (assignment.map (workerQueueTrace envOf)).length false).count
        true = 0 := by
      simp [List.count_replicate]
    rw [hc] at hb
    have hlen2 : (assignment.map (workerQueueTrace envOf)).length = assignment.length := by
      simp
    rw [hlen2] at hb
    have : (assignment.length : Int) ≤ (CONCURRENT_BROWSERS : Int) := by exact_mod_cast hlen
    omega
  · intro j h1 h2
    rw [List.get_eq_getElem, List.get_eq_getElem]
    rw [List.getElem_replicate, List.getElem_map]
    exact worker_serial envOf _

/-- Witness for C9: two single-item workers under a concrete schedule. -/
theorem claim_C9_witness :
    liveSessions ((interleave
      ([[PyVal.pair (.str "111") (.int 2)], [PyVal.pair (.str "222") (.int 3)]].map
        (workerQueueTrace envOf0)) [0, 1, 0, 0, 1, 1, 0, 1]).take 5) ≤
      (CONCURRENT_BROWSERS : Int) :=
  claim_C9 envOf0 [[PyVal.pair (.str "111") (.int 2)], [PyVal.pair (.str "222") (.int 3)]]
    [0, 1, 0, 0, 1, 1, 0, 1] 5 (by decide)

/-- Counterexample for C10 as stated: the payload `"ab,xyz"` contains the
token `"xyz"`, which is not a length-2 sequence, and the queue path does
raise the unpacking error — but only after the length-2 token `"ab"` has
already produced a Processing Result and a status update, so the error
does not come "before producing any Processing Result or status update". -/
theorem claim_C10_counterexample :
    (process_pubsub_message envOf0 "ab,xyz").1 = .error .valueErrorEx ∧
    (process_pubsub_message envOf0 "ab,xyz").2 ≠ [] ∧
    BEvent.marked (.str "a") "processed" ∈ (process_pubsub_message envOf0 "ab,xyz").2 := by
  refine ⟨?_, ?_, ?_⟩ <;> decide

/-- Claim C10 (amended): the queue path splits the payload on commas and
unpacks each token as an (isbn, row_index) pair; whenever some token is
not a length-2 sequence the path raises `ValueError`, and when the first
such token is the payload's first token — as for any ordinary ISBN — it
raises before producing any Processing Result or status update. -/
theorem claim_C10 : ∀ (envOf : PyVal → ProcEnv) (payload : String),
    ((∃ tok ∈ splitOnSep ',' payload.data, tok.length ≠ 2) →
      (process_pubsub_message envOf payload).1 = .error .valueErrorEx) ∧
    (∀ t0 ts, splitOnSep ',' payload.data = t0 :: ts → t0.length ≠ 2 →
      process_pubsub_message envOf payload = (.error .valueErrorEx, [])) := by
  intro envOf payload
  constructor
  · intro h
    exact batch_bad_token envOf (splitOnSep ',' payload.data) h
  · intro t0 ts hsp h0
    unfold process_pubsub_message
    rw [hsp]
    simp only [List.map_cons, process_isbn_batch, unpack2_str_ne2 t0 h0]

/-- Witness for C10: the single-token payload `"xyz"` (an ordinary
wrong-length token) makes the path raise with an empty event trace. -/
theorem claim_C10_witness :
    process_pubsub_message envOf0 "xyz" = (.error .valueErrorEx, []) :=
  (claim_C10 envOf0 "xyz").2 ['x', 'y', 'z'] [] (by decide) (by decide)

end BookScraper
